import Mathlib

/-!
Shallow embedding of the request-dispatch core of the `panther` web framework
(`panther/main.py`): the route table (`find_endpoint`, `collect_urls`), the
middleware chain protocol, the exception translator (`handle_exceptions`) and
the dispatcher (`Panther.run`), together with theorems settling the spec's
claims about them.
-/

namespace PantherSpec

/-- Structured value universe for request/response payloads and error details:
the Python dynamic values that flow through the dispatcher, restricted to
strings and string-keyed mappings (the shapes the dispatcher inspects —
`isinstance(e.detail, dict)` is the only type test it performs). -/
inductive Val where
  | vstr (s : String)
  | vdict (entries : List (String × Val))


/-- Python `isinstance(x, dict)` on a `Val`. -/
def Val.isDict : Val → Bool
  | .vdict _ => true
  | _ => false

/-- `panther.request.Request`: the fields the dispatcher itself reads
(`request.path`) plus the body payload carried along the chain. -/
structure Request where
  path : String
  body : Val


/-- `panther.response.Response(data=..., status_code=...)`. -/
structure Response where
  data : Val
  status_code : Nat


/-- `panther.exceptions.APIException`: carries a detail payload and a status
code (`e.detail`, `e.status_code` as read by `Panther.handle_exceptions`). -/
structure APIException where
  detail : Val
  status_code : Nat


/-- An error raised by a hook or handler: either an `APIException`
(application error, recognized by the dispatcher's `except APIException`
clauses) or any other Python exception (caught only by the outer
`except Exception`). -/
inductive Exc where
  | api (e : APIException)
  | other (msg : String)


/-- A registered endpoint: `await endpoint(request=request)` may return a
`Response` or raise. -/
def Handler := Request → Except Exc Response

/-- One configured middleware instance: a `before` hook (may replace the
`Request`) and an `after` hook (may replace the `Response`); either may raise.
The `name` identifies the instance in observed invocation traces. -/
structure Middleware where
  name : String
  before : Request → Except Exc Request
  after : Response → Except Exc Response

/-- `Panther.handle_exceptions` (main.py:97-102): translate an `APIException`
into a `Response`, keeping a dict detail as-is and wrapping anything else as
`{"detail": e.detail}`. -/
def handle_exceptions (e : APIException) : Response :=
  { data := if e.detail.isDict then e.detail else .vdict [("detail", e.detail)],
    status_code := e.status_code }

/-- `Panther.find_endpoint` (main.py:199-203): scan `config['urls']` in
insertion order, return the endpoint on exact string equality of the path,
fall through to `None` otherwise. -/
def find_endpoint : List (String × Handler) → String → Option Handler
  | [], _ => none
  | (url, h) :: rest, path => if path = url then some h else find_endpoint rest path

/-- Observable steps of one dispatch of `Panther.run`: the monitoring signal
opening, each hook/handler invocation, critical logging, and each call of the
response emitter `http_response(send, status_code, ..., body, exception)`. -/
inductive Event where
  | monitoringBefore
  | beforeCall (name : String)
  | handlerCall
  | afterCall (name : String)
  | logCritical (msg : String)
  | emit (status : Nat) (body : Option Val) (exception : Bool)

/-- The before-pass loop (main.py:64-65): walk the chain in list order,
threading the possibly-replaced `Request`; the first raise aborts the loop
(the hook was still invoked, so its event is recorded). -/
def beforePass : List Middleware → Request → List Event × Except Exc Request
  | [], req => ([], .ok req)
  | m :: rest, req =>
    match m.before req with
    | .ok req' =>
      let res := beforePass rest req'
      (.beforeCall m.name :: res.1, res.2)
    | .error e => ([.beforeCall m.name], .error e)

/-- The after-pass loop (main.py:87-91): walk the (already reversed) chain,
threading the possibly-replaced `Response`; an `APIException` is caught inside
the loop body and translated by `handle_exceptions`, any other exception
escapes the loop (and `run`) uncaught. -/
def afterPass : List Middleware → Response → List Event × Except Exc Response
  | [], resp => ([], .ok resp)
  | m :: rest, resp =>
    match m.after resp with
    | .ok resp' =>
      let res := afterPass rest resp'
      (.afterCall m.name :: res.1, res.2)
    | .error (.api e) =>
      let res := afterPass rest (handle_exceptions e)
      (.afterCall m.name :: res.1, res.2)
    | .error (.other s) => ([.afterCall m.name], .error (.other s))

/-- Everything one call of `Panther.run` leaves behind: the event trace, the
state of the shared `config['middlewares']` list after the call (the source
mutates it in place at main.py:86), and an exception that escaped `run`
uncaught, if any. -/
structure RunOutcome where
  events : List Event
  middlewares : List Middleware
  escaped : Option Exc

/-- Lines 84-95 of `Panther.run`: reverse the shared chain in place, run the
after-pass over it, then emit the final response (or let a non-`APIException`
escape with no emission). -/
def afterPhase (middlewares : List Middleware) (pre : List Event) (resp : Response) : RunOutcome :=
  let reversed := middlewares.reverse
  let res := afterPass reversed resp
  match res.2 with
  | .ok final =>
    { events := pre ++ res.1 ++ [.emit final.status_code (some final.data) false],
      middlewares := reversed, escaped := none }
  | .error e =>
    { events := pre ++ res.1, middlewares := reversed, escaped := some e }

/-- `Panther.run` (main.py:44-95), for one request: open the monitoring
signal, resolve the endpoint (miss emits 404 with the exception flag), run the
before-pass and the endpoint inside one `try` whose `except APIException`
translates the error into the working response and whose `except Exception`
logs critical and emits a bare 500, then hand off to the after-phase. -/
def run (middlewares : List Middleware) (urls : List (String × Handler)) (req : Request) :
    RunOutcome :=
  match find_endpoint urls req.path with
  | none =>
    { events := [.monitoringBefore, .emit 404 none true],
      middlewares := middlewares, escaped := none }
  | some endpoint =>
    let bp := beforePass middlewares req
    match bp.2 with
    | .ok req' =>
      match endpoint req' with
      | .ok resp => afterPhase middlewares (.monitoringBefore :: bp.1 ++ [.handlerCall]) resp
      | .error (.api e) =>
        afterPhase middlewares (.monitoringBefore :: bp.1 ++ [.handlerCall]) (handle_exceptions e)
      | .error (.other s) =>
        { events := .monitoringBefore :: bp.1 ++ [.handlerCall, .logCritical s, .emit 500 none true],
          middlewares := middlewares, escaped := none }
    | .error (.api e) =>
      afterPhase middlewares (.monitoringBefore :: bp.1) (handle_exceptions e)
    | .error (.other s) =>
      { events := .monitoringBefore :: bp.1 ++ [.logCritical s, .emit 500 none true],
        middlewares := middlewares, escaped := none }

/-- Names of the before-hooks invoked in a trace, in invocation order. -/
def beforeOrder : List Event → List String
  | [] => []
  | .beforeCall n :: rest => n :: beforeOrder rest
  | _ :: rest => beforeOrder rest

/-- Names of the after-hooks invoked in a trace, in invocation order. -/
def afterOrder : List Event → List String
  | [] => []
  | .afterCall n :: rest => n :: afterOrder rest
  | _ :: rest => afterOrder rest

/-- How many times a trace invoked the response emitter. -/
def emitCount : List Event → Nat
  | [] => 0
  | .emit _ _ _ :: rest => emitCount rest + 1
  | _ :: rest => emitCount rest

/-- A value of the configured `urls` dict as `Panther.collect_urls` sees it:
the `None` sentinel, the `Ellipsis` sentinel, an actual endpoint (of an
abstract endpoint type `ε`), or a nested group (a dict, kept as an
insertion-ordered association list). -/
inductive UrlVal (ε : Type) where
  | none
  | ellipsis
  | endpoint (e : ε)
  | tree (children : List (String × UrlVal ε))

/-- A configuration error logged by `collect_urls` via `logger.error`,
identifying the offending flattened url. -/
inductive CfgError where
  | ellipsisUrl (url : String)
  | noneUrl (url : String)

/-- Assignment `d[k] = v` on a Python dict kept as an insertion-ordered
association list: an existing key keeps its position and gets the new value, a
new key is appended. -/
def dictInsert {α : Type} : List (String × α) → String → α → List (String × α)
  | [], k, v => [(k, v)]
  | (k', v') :: rest, k, v =>
    if k' = k then (k, v) :: rest else (k', v') :: dictInsert rest k v

/-- `Panther.collect_urls` (main.py:167-180): walk the `urls` dict in order;
an `Ellipsis` or `None` endpoint logs a configuration error (and, not being a
dict, still falls through to registration); a dict recurses with
`f'\x7bpre_url\x7d/\x7burl\x7d'` as the new prefix; anything else is assigned
to `config['urls']` under the key `f'\x7bpre_url\x7d\x7burl\x7d'` (no
separator). Returns the updated store and the errors logged. -/
def collect_urls {ε : Type} (pre_url : String) :
    List (String × UrlVal ε) → List (String × UrlVal ε) → List CfgError →
      List (String × UrlVal ε) × List CfgError
  | [], store, errs => (store, errs)
  | (url, ep) :: rest, store, errs =>
    match ep with
    | .tree children =>
      let res := collect_urls (pre_url ++ "/" ++ url) children store errs
      collect_urls pre_url rest res.1 res.2
    | .ellipsis =>
      collect_urls pre_url rest (dictInsert store (pre_url ++ url) .ellipsis)
        (errs ++ [.ellipsisUrl (pre_url ++ url)])
    | .none =>
      collect_urls pre_url rest (dictInsert store (pre_url ++ url) .none)
        (errs ++ [.noneUrl (pre_url ++ url)])
    | .endpoint e =>
      collect_urls pre_url rest (dictInsert store (pre_url ++ url) (.endpoint e)) errs

/-! Concrete instances used to exercise the dispatcher on explicit inputs. -/

/-- A middleware whose hooks return their argument unchanged. -/
def idMiddleware (n : String) : Middleware :=
  { name := n, before := fun r => .ok r, after := fun s => .ok s }

/-- A handler that always succeeds with a fixed 200 response. -/
def okHandler : Handler := fun _ => .ok { data := .vdict [], status_code := 200 }

/-- A route table with the single route `/a`. -/
def demoUrls : List (String × Handler) := [("/a", okHandler)]

/-- A request to the registered path `/a`. -/
def demoReq : Request := { path := "/a", body := .vdict [] }

/-- A middleware whose before-hook raises a 403 `APIException` and whose
after-hook is the identity. -/
def rejectMw : Middleware :=
  { name := "M",
    before := fun _ => .error (.api { detail := .vstr "forbidden", status_code := 403 }),
    after := fun s => .ok s }

/-- A middleware whose after-hook raises a non-`APIException` error. -/
def crashAfterMw : Middleware :=
  { name := "X", before := fun r => .ok r, after := fun _ => .error (.other "boom") }

/-- A middleware whose before-hook raises a non-`APIException` error. -/
def crashBeforeMw : Middleware :=
  { name := "C", before := fun _ => .error (.other "crash"), after := fun s => .ok s }

/-- A middleware whose after-hook raises a 418 `APIException`. -/
def apiAfterMw : Middleware :=
  { name := "B", before := fun r => .ok r,
    after := fun _ => .error (.api { detail := .vstr "teapot", status_code := 418 }) }

/-! Hook-behaviour predicates used as hypotheses of the dispatch theorems. -/

/-- Every before-hook in the chain always succeeds. -/
def beforeOk (middlewares : List Middleware) : Prop :=
  ∀ m ∈ middlewares, ∀ r, ∃ r', m.before r = Except.ok r'

/-- No after-hook in the chain ever raises a non-application error (they may
still raise `APIException`s or succeed). -/
def afterNoEscape (middlewares : List Middleware) : Prop :=
  ∀ m ∈ middlewares, ∀ s msg, m.after s ≠ Except.error (Exc.other msg)

theorem beforeOk_reverse {middlewares : List Middleware} (hb : beforeOk middlewares) :
    beforeOk middlewares.reverse :=
  fun m hm => hb m (List.mem_reverse.mp hm)

theorem afterNoEscape_reverse {middlewares : List Middleware} (ha : afterNoEscape middlewares) :
    afterNoEscape middlewares.reverse :=
  fun m hm => ha m (List.mem_reverse.mp hm)

/-! Computation lemmas for the two passes. -/

/-- When every before-hook succeeds, the before-pass invokes the whole chain
in list order and returns some final request. -/
theorem beforePass_ok (middlewares : List Middleware) :
    beforeOk middlewares → ∀ req, ∃ req',
      beforePass middlewares req
        = (middlewares.map fun m => Event.beforeCall m.name, Except.ok req') := by
  induction middlewares with
  | nil => intro _ req; exact ⟨req, rfl⟩
  | cons m rest ih =>
    intro hb req
    obtain ⟨r', hr'⟩ := hb m (List.mem_cons_self m rest) req
    obtain ⟨req'', hrest⟩ := ih (fun m' hm' => hb m' (List.mem_cons_of_mem m hm')) r'
    exact ⟨req'', by simp [beforePass, hr', hrest]⟩

/-- When no after-hook raises a non-application error, the after-pass invokes
the whole chain in list order and completes with some final response. -/
theorem afterPass_total (middlewares : List Middleware) :
    afterNoEscape middlewares → ∀ resp, ∃ final,
      afterPass middlewares resp
        = (middlewares.map fun m => Event.afterCall m.name, Except.ok final) := by
  induction middlewares with
  | nil => intro _ resp; exact ⟨resp, rfl⟩
  | cons m rest ih =>
    intro ha resp
    have ha' : afterNoEscape rest := fun m' hm' => ha m' (List.mem_cons_of_mem m hm')
    cases hm : m.after resp with
    | ok resp' =>
      obtain ⟨fin, hrest⟩ := ih ha' resp'
      exact ⟨fin, by simp [afterPass, hm, hrest]⟩
    | error e =>
      cases e with
      | api ex =>
        obtain ⟨fin, hrest⟩ := ih ha' (handle_exceptions ex)
        exact ⟨fin, by simp [afterPass, hm, hrest]⟩
      | other s =>
        exact absurd hm (ha m (List.mem_cons_self m rest) resp s)

/-- Every event the before-pass records is a before-hook invocation. -/
theorem beforePass_events (middlewares : List Middleware) :
    ∀ req, ∀ ev ∈ (beforePass middlewares req).1, ∃ n, ev = Event.beforeCall n := by
  induction middlewares with
  | nil => intro req ev hev; simp [beforePass] at hev
  | cons m rest ih =>
    intro req ev hev
    cases hm : m.before req with
    | ok req' =>
      simp [beforePass, hm] at hev
      rcases hev with rfl | hev
      · exact ⟨m.name, rfl⟩
      · exact ih req' ev hev
    | error e =>
      simp [beforePass, hm] at hev
      exact ⟨m.name, hev⟩

/-! Trace bookkeeping lemmas. -/

theorem beforeOrder_append (a b : List Event) :
    beforeOrder (a ++ b) = beforeOrder a ++ beforeOrder b := by
  induction a with
  | nil => rfl
  | cons ev rest ih => cases ev <;> simp [beforeOrder, ih]

theorem afterOrder_append (a b : List Event) :
    afterOrder (a ++ b) = afterOrder a ++ afterOrder b := by
  induction a with
  | nil => rfl
  | cons ev rest ih => cases ev <;> simp [afterOrder, ih]

theorem emitCount_append (a b : List Event) :
    emitCount (a ++ b) = emitCount a + emitCount b := by
  induction a with
  | nil => simp [emitCount]
  | cons ev rest ih => cases ev <;> simp [emitCount, ih] ; omega

theorem beforeOrder_map_beforeCall (ms : List Middleware) :
    beforeOrder (ms.map fun m => Event.beforeCall m.name) = ms.map Middleware.name := by
  induction ms with
  | nil => rfl
  | cons m rest ih => simpa [beforeOrder] using ih

theorem beforeOrder_map_afterCall (ms : List Middleware) :
    beforeOrder (ms.map fun m => Event.afterCall m.name) = [] := by
  induction ms with
  | nil => rfl
  | cons m rest ih => simpa [beforeOrder] using ih

theorem afterOrder_map_afterCall (ms : List Middleware) :
    afterOrder (ms.map fun m => Event.afterCall m.name) = ms.map Middleware.name := by
  induction ms with
  | nil => rfl
  | cons m rest ih => simpa [afterOrder] using ih

theorem beforeOrder_of_afterCalls (l : List Event)
    (h : ∀ ev ∈ l, ∃ n, ev = Event.afterCall n) : beforeOrder l = [] := by
  induction l with
  | nil => rfl
  | cons ev rest ih =>
    obtain ⟨n, rfl⟩ := h ev (List.mem_cons_self ev rest)
    simpa [beforeOrder] using ih fun ev' hev' => h ev' (List.mem_cons_of_mem _ hev')

theorem afterOrder_of_beforeCalls (l : List Event)
    (h : ∀ ev ∈ l, ∃ n, ev = Event.beforeCall n) : afterOrder l = [] := by
  induction l with
  | nil => rfl
  | cons ev rest ih =>
    obtain ⟨n, rfl⟩ := h ev (List.mem_cons_self ev rest)
    simpa [afterOrder] using ih fun ev' hev' => h ev' (List.mem_cons_of_mem _ hev')

theorem emitCount_of_beforeCalls (l : List Event)
    (h : ∀ ev ∈ l, ∃ n, ev = Event.beforeCall n) : emitCount l = 0 := by
  induction l with
  | nil => rfl
  | cons ev rest ih =>
    obtain ⟨n, rfl⟩ := h ev (List.mem_cons_self ev rest)
    simpa [emitCount] using ih fun ev' hev' => h ev' (List.mem_cons_of_mem _ hev')

theorem emitCount_map_afterCall (ms : List Middleware) :
    emitCount (ms.map fun m => Event.afterCall m.name) = 0 := by
  induction ms with
  | nil => rfl
  | cons m rest ih => simpa [emitCount] using ih

theorem handlerCall_not_mem_beforeCalls (l : List Event)
    (h : ∀ ev ∈ l, ∃ n, ev = Event.beforeCall n) : Event.handlerCall ∉ l := by
  intro hmem
  obtain ⟨n, hn⟩ := h Event.handlerCall hmem
  cases hn

theorem afterOrder_reverse_map_afterCall (ms : List Middleware) :
    afterOrder (ms.map fun m => Event.afterCall m.name).reverse
      = (ms.map Middleware.name).reverse := by
  rw [← List.map_reverse, afterOrder_map_afterCall, List.map_reverse]

theorem emitCount_reverse_map_afterCall (ms : List Middleware) :
    emitCount (ms.map fun m => Event.afterCall m.name).reverse = 0 := by
  rw [← List.map_reverse]
  exact emitCount_map_afterCall ms.reverse

theorem handlerCall_not_mem_map_afterCall (ms : List Middleware) :
    Event.handlerCall ∉ ms.map fun m => Event.afterCall m.name := by
  intro hmem
  obtain ⟨m, _, hm⟩ := List.mem_map.mp hmem
  cases hm

/-- Shape of one fully successful dispatch: when the route resolves, every
before-hook succeeds, the handler succeeds, and no after-hook raises a
non-application error, `run` invokes the before-hooks in chain order, leaves
the shared chain reversed, and lets nothing escape. -/
theorem run_full (middlewares : List Middleware) (urls : List (String × Handler))
    (req : Request) (endpoint : Handler)
    (hfind : find_endpoint urls req.path = some endpoint)
    (hb : beforeOk middlewares)
    (hH : ∀ r, ∃ resp, endpoint r = Except.ok resp)
    (ha : afterNoEscape middlewares) :
    (run middlewares urls req).middlewares = middlewares.reverse ∧
    beforeOrder (run middlewares urls req).events = middlewares.map Middleware.name ∧
    (run middlewares urls req).escaped = none := by
  obtain ⟨req', hbp⟩ := beforePass_ok middlewares hb req
  obtain ⟨resp, hresp⟩ := hH req'
  obtain ⟨fin, hap⟩ := afterPass_total middlewares.reverse (afterNoEscape_reverse ha) resp
  refine ⟨?_, ?_, ?_⟩
  · simp [run, hfind, hbp, hresp, afterPhase, hap]
  · simp only [run, hfind, hbp, hresp, afterPhase, hap]
    simp [beforeOrder, beforeOrder_append, beforeOrder_map_beforeCall]
    exact beforeOrder_of_afterCalls _ fun ev hev => by
      obtain ⟨m, _, rfl⟩ := List.mem_map.mp (List.mem_reverse.mp hev)
      exact ⟨m.name, rfl⟩
  · simp [run, hfind, hbp, hresp, afterPhase, hap]

/-! Claim theorems. -/

/-- C3: `handle_exceptions` maps every `APIException` to a `Response` whose
status code is the error's carried status code, whose body is the detail
unchanged when the detail is a dict, and `{"detail": <message>}` otherwise; it
is a total pure function on the `APIException` domain (a plain `def` into
`Response`, so it never itself fails). -/
theorem handle_exceptions_translates (e : APIException) :
    (handle_exceptions e).status_code = e.status_code ∧
    (∀ entries, e.detail = Val.vdict entries → (handle_exceptions e).data = e.detail) ∧
    (e.detail.isDict = false →
      (handle_exceptions e).data = Val.vdict [("detail", e.detail)]) := by
  refine ⟨rfl, ?_, ?_⟩
  · intro entries hd
    simp [handle_exceptions, hd, Val.isDict]
  · intro hd
    simp [handle_exceptions, hd]

/-- Witness for C3 at `detail = "bad input"`, `status_code = 400` and at
`detail = {"field": "x"}`, `status_code = 409`. -/
theorem handle_exceptions_translates_witness :
    (handle_exceptions { detail := Val.vstr "bad input", status_code := 400 }).data
        = Val.vdict [("detail", Val.vstr "bad input")] ∧
    (handle_exceptions { detail := Val.vdict [("field", Val.vstr "x")], status_code := 409 }).data
        = Val.vdict [("field", Val.vstr "x")] :=
  ⟨(handle_exceptions_translates _).2.2 rfl,
   (handle_exceptions_translates _).2.1 [("field", Val.vstr "x")] rfl⟩

/-- C4: route resolution is exact string equality only — a path equal to no
registered path resolves to `none` (never throws: `find_endpoint` is total
into `Option`), and a registered path resolves to its registered handler
(under the dict invariant that keys are unique). -/
theorem find_endpoint_exact_match (urls : List (String × Handler)) :
    (∀ q : String, (∀ pr ∈ urls, q ≠ pr.1) → find_endpoint urls q = none) ∧
    (∀ (p : String) (h : Handler), (urls.map Prod.fst).Nodup → (p, h) ∈ urls →
      find_endpoint urls p = some h) := by
  induction urls with
  | nil => exact ⟨fun _ _ => rfl, fun _ _ _ hmem => absurd hmem (List.not_mem_nil _)⟩
  | cons hd tl ih =>
    obtain ⟨u, f⟩ := hd
    constructor
    · intro q hq
      have h1 : q ≠ u := hq (u, f) (List.mem_cons_self _ _)
      simp only [find_endpoint, if_neg h1]
      exact ih.1 q fun pr hpr => hq pr (List.mem_cons_of_mem _ hpr)
    · intro p h hnd hmem
      rw [List.map_cons] at hnd
      have hu : u ∉ tl.map Prod.fst := (List.nodup_cons.mp hnd).1
      rcases List.mem_cons.mp hmem with heq | hmem'
      · obtain ⟨rfl, rfl⟩ := Prod.mk.injEq .. ▸ heq
        simp [find_endpoint]
      · have hp : p ≠ u := fun hpu => hu (hpu ▸ List.mem_map.mpr ⟨(p, h), hmem', rfl⟩)
        simp only [find_endpoint, if_neg hp]
        exact ih.2 p h (List.nodup_cons.mp hnd).2 hmem'

/-- Witness for C4 on the table `[("/a", okHandler)]`: the prefix `/` of the
registered path misses, the registered path hits. -/
theorem find_endpoint_exact_match_witness :
    find_endpoint demoUrls "/" = none ∧ find_endpoint demoUrls "/a" = some okHandler := by
  constructor
  · refine (find_endpoint_exact_match demoUrls).1 "/" ?_
    intro pr hpr
    simp only [demoUrls, List.mem_singleton] at hpr
    subst hpr
    decide
  · refine (find_endpoint_exact_match demoUrls).2 "/a" okHandler ?_ ?_
    · simp [demoUrls]
    · simp [demoUrls]

/-- C8 (code-bug evidence): `collect_urls` logs a configuration error for a
route whose endpoint is `None` or `Ellipsis`, but — the loop body having no
`continue` — still enters the route into the table, where request-time
resolution can reach it; the claim's "is not entered into the Route Table"
fails on the code. -/
theorem collect_urls_registers_placeholder :
    collect_urls (ε := Nat) "" [("x", UrlVal.none)] [] []
        = ([("x", UrlVal.none)], [CfgError.noneUrl "x"]) ∧
    collect_urls (ε := Nat) "" [("y", UrlVal.ellipsis)] [] []
        = ([("y", UrlVal.ellipsis)], [CfgError.ellipsisUrl "y"]) := by
  constructor <;> simp [collect_urls, dictInsert]

/-- C10: flattening a top-level group `g` containing the leaf `(u, h)`
registers the handler under exactly `'/' ++ g ++ u` — a separator is prepended
before the group key but none is inserted between the accumulated prefix and
the leaf key. -/
theorem collect_urls_group_no_leaf_separator {ε : Type} (g u : String) (e : ε) :
    collect_urls "" [(g, UrlVal.tree [(u, UrlVal.endpoint e)])] [] []
      = ([("/" ++ g ++ u, UrlVal.endpoint e)], []) := by
  simp [collect_urls, dictInsert, String.empty_append]

/-- C1 (code-bug evidence): with the shared chain `[A, B]` and one route,
request 1 leaves the shared chain permanently reversed, so request 2's
before-hooks are invoked as `B, A` — not the original registration order
`A, B` the claim asserts. -/
theorem run_second_request_sees_reversed_chain :
    (run [idMiddleware "A", idMiddleware "B"] demoUrls demoReq).middlewares
        = [idMiddleware "B", idMiddleware "A"] ∧
    beforeOrder (run (run [idMiddleware "A", idMiddleware "B"] demoUrls demoReq).middlewares
        demoUrls demoReq).events = ["B", "A"] ∧
    ["B", "A"] ≠ ["A", "B"] := by
  refine ⟨rfl, rfl, by decide⟩

/-- C2 counterexample: with the single middleware `M` whose before-hook raises
a 403 `APIException`, the after-pass is not skipped — `M`'s after-hook is
invoked on the translated response before emission, contradicting the claim
that no after-hook runs. -/
theorem run_before_error_after_pass_still_runs :
    (run [rejectMw] demoUrls demoReq).events
      = [Event.monitoringBefore, Event.beforeCall "M", Event.afterCall "M",
         Event.emit 403 (some (Val.vdict [("detail", Val.vstr "forbidden")])) false] := by
  rfl

/-- C2 amended: when a before-hook raises an `APIException`, the handler is
skipped and the error is translated into the working response, but the
after-pass is not skipped: provided no after-hook raises a non-application
error, every middleware's after-hook is invoked, in reverse registration
order, before emission. -/
theorem run_before_api_skips_handler_not_after_pass (middlewares : List Middleware)
    (urls : List (String × Handler)) (req : Request) (endpoint : Handler)
    (bevs : List Event) (ex : APIException)
    (hfind : find_endpoint urls req.path = some endpoint)
    (hbp : beforePass middlewares req = (bevs, Except.error (Exc.api ex)))
    (ha : afterNoEscape middlewares) :
    Event.handlerCall ∉ (run middlewares urls req).events ∧
    afterOrder (run middlewares urls req).events
      = (middlewares.map Middleware.name).reverse := by
  obtain ⟨fin, hap⟩ :=
    afterPass_total middlewares.reverse (afterNoEscape_reverse ha) (handle_exceptions ex)
  have hbevs : ∀ ev ∈ bevs, ∃ n, ev = Event.beforeCall n := by
    intro ev hev
    exact beforePass_events middlewares req ev (by rw [hbp]; exact hev)
  constructor
  · simp only [run, hfind, hbp, afterPhase, hap]
    intro hmem
    simp only [List.mem_cons, List.mem_append, List.mem_singleton] at hmem
    rcases hmem with ((h | h) | h) | h | h
    · cases h
    · exact handlerCall_not_mem_beforeCalls bevs hbevs h
    · exact handlerCall_not_mem_map_afterCall middlewares.reverse h
    · cases h
    · cases h
  · simp only [run, hfind, hbp, afterPhase, hap]
    simp [afterOrder, afterOrder_append, afterOrder_reverse_map_afterCall,
      afterOrder_of_beforeCalls bevs hbevs]

/-- Witness for the C2 amended theorem on the chain `[rejectMw]`. -/
theorem run_before_api_skips_handler_not_after_pass_witness :
    Event.handlerCall ∉ (run [rejectMw] demoUrls demoReq).events ∧
    afterOrder (run [rejectMw] demoUrls demoReq).events
      = ([rejectMw].map Middleware.name).reverse :=
  run_before_api_skips_handler_not_after_pass [rejectMw] demoUrls demoReq okHandler
    [Event.beforeCall "M"] { detail := Val.vstr "forbidden", status_code := 403 }
    rfl rfl
    (by intro m hm s msg
        simp only [List.mem_singleton] at hm
        subst hm
        simp [rejectMw])

/-- C5: if an after-hook raises an `APIException`, it is caught locally at
that step, the translated response `handle_exceptions ex` becomes the input to
the remainder of the pass, and — the remaining hooks raising only application
errors — every remaining middleware's after-hook still runs and the pass
completes without aborting. -/
theorem afterPass_catches_api_locally (m : Middleware) (rest : List Middleware)
    (resp : Response) (ex : APIException)
    (hm : m.after resp = Except.error (Exc.api ex))
    (ha : afterNoEscape rest) :
    ∃ final,
      afterPass (m :: rest) resp
          = (Event.afterCall m.name :: rest.map (fun mw => Event.afterCall mw.name),
             Except.ok final) ∧
      afterPass rest (handle_exceptions ex)
          = (rest.map (fun mw => Event.afterCall mw.name), Except.ok final) := by
  obtain ⟨fin, hrest⟩ := afterPass_total rest ha (handle_exceptions ex)
  exact ⟨fin, by simp [afterPass, hm, hrest], hrest⟩

/-- Witness for C5: after-hook `B` raises, after-hook `A` (next in reverse
order) still runs on the translated response. -/
theorem afterPass_catches_api_locally_witness :
    ∃ final,
      afterPass (apiAfterMw :: [idMiddleware "A"]) { data := Val.vdict [], status_code := 200 }
          = (Event.afterCall apiAfterMw.name
              :: [idMiddleware "A"].map (fun mw => Event.afterCall mw.name), Except.ok final) ∧
      afterPass [idMiddleware "A"]
          (handle_exceptions { detail := Val.vstr "teapot", status_code := 418 })
          = ([idMiddleware "A"].map (fun mw => Event.afterCall mw.name), Except.ok final) :=
  afterPass_catches_api_locally apiAfterMw [idMiddleware "A"]
    { data := Val.vdict [], status_code := 200 }
    { detail := Val.vstr "teapot", status_code := 418 }
    rfl
    (by intro m hm s msg
        simp only [List.mem_singleton] at hm
        subst hm
        simp [idMiddleware])

/-- C6: an error that is not an `APIException`, raised by a before-hook or by
the handler, is logged at critical severity and `run` emits the fixed 500
response with the monitoring exception flag set and no body — the original
error's detail is not exposed to the caller. -/
theorem run_unhandled_error_500 (middlewares : List Middleware)
    (urls : List (String × Handler)) (req : Request) (endpoint : Handler) (s : String)
    (hfind : find_endpoint urls req.path = some endpoint) :
    (∀ bevs, beforePass middlewares req = (bevs, Except.error (Exc.other s)) →
      (run middlewares urls req).events
        = Event.monitoringBefore :: bevs
            ++ [Event.logCritical s, Event.emit 500 none true]) ∧
    (∀ bevs req', beforePass middlewares req = (bevs, Except.ok req') →
      endpoint req' = Except.error (Exc.other s) →
      (run middlewares urls req).events
        = Event.monitoringBefore :: bevs
            ++ [Event.handlerCall, Event.logCritical s, Event.emit 500 none true]) := by
  constructor
  · intro bevs hbp
    simp [run, hfind, hbp]
  · intro bevs req' hbp hh
    simp [run, hfind, hbp, hh]

/-- Witness for C6: a before-hook raising a non-`APIException` yields the
logged-critical bare 500 emission. -/
theorem run_unhandled_error_500_witness :
    (run [crashBeforeMw] demoUrls demoReq).events
      = Event.monitoringBefore :: [Event.beforeCall "C"]
          ++ [Event.logCritical "crash", Event.emit 500 none true] :=
  (run_unhandled_error_500 [crashBeforeMw] demoUrls demoReq okHandler "crash" rfl).1
    [Event.beforeCall "C"] rfl

/-- C7 counterexample: a non-application error raised by an after-hook escapes
`run` uncaught and the response emitter is never invoked for that request,
contradicting the claim that the emitter always runs exactly once and that no
request-time error propagates out of the dispatcher. -/
theorem run_after_other_error_escapes :
    emitCount (run [crashAfterMw] demoUrls demoReq).events = 0 ∧
    (run [crashAfterMw] demoUrls demoReq).escaped = some (Exc.other "boom") := by
  constructor <;> rfl

/-- C7 amended: provided no after-hook raises a non-application error, every
request — route miss, before-hook error of either kind, handler error of
either kind, after-hook application error, or success — invokes the response
emitter exactly once, and nothing escapes `run`. -/
theorem run_emits_exactly_once (middlewares : List Middleware)
    (urls : List (String × Handler)) (req : Request)
    (ha : afterNoEscape middlewares) :
    emitCount (run middlewares urls req).events = 1 ∧
    (run middlewares urls req).escaped = none := by
  cases hfind : find_endpoint urls req.path with
  | none => constructor <;> simp [run, hfind, emitCount]
  | some endpoint =>
    cases hbp : beforePass middlewares req with
    | mk bevs res =>
      have hbevs : ∀ ev ∈ bevs, ∃ n, ev = Event.beforeCall n := by
        intro ev hev
        exact beforePass_events middlewares req ev (by rw [hbp]; exact hev)
      cases res with
      | ok req' =>
        cases hh : endpoint req' with
        | ok resp =>
          obtain ⟨fin, hap⟩ := afterPass_total middlewares.reverse (afterNoEscape_reverse ha) resp
          constructor
          · simp only [run, hfind, hbp, hh, afterPhase, hap]
            simp [emitCount, emitCount_append, emitCount_of_beforeCalls bevs hbevs,
              emitCount_reverse_map_afterCall]
          · simp [run, hfind, hbp, hh, afterPhase, hap]
        | error e =>
          cases e with
          | api ex =>
            obtain ⟨fin, hap⟩ :=
              afterPass_total middlewares.reverse (afterNoEscape_reverse ha) (handle_exceptions ex)
            constructor
            · simp only [run, hfind, hbp, hh, afterPhase, hap]
              simp [emitCount, emitCount_append, emitCount_of_beforeCalls bevs hbevs,
                emitCount_reverse_map_afterCall]
            · simp [run, hfind, hbp, hh, afterPhase, hap]
          | other s =>
            constructor
            · simp only [run, hfind, hbp, hh]
              simp [emitCount, emitCount_append, emitCount_of_beforeCalls bevs hbevs]
            · simp [run, hfind, hbp, hh]
      | error e =>
        cases e with
        | api ex =>
          obtain ⟨fin, hap⟩ :=
            afterPass_total middlewares.reverse (afterNoEscape_reverse ha) (handle_exceptions ex)
          constructor
          · simp only [run, hfind, hbp, afterPhase, hap]
            simp [emitCount, emitCount_append, emitCount_of_beforeCalls bevs hbevs,
              emitCount_reverse_map_afterCall]
          · simp [run, hfind, hbp, afterPhase, hap]
        | other s =>
          constructor
          · simp only [run, hfind, hbp]
            simp [emitCount, emitCount_append, emitCount_of_beforeCalls bevs hbevs]
          · simp [run, hfind, hbp]

/-- Witness for the C7 amended theorem on a one-middleware chain whose hooks
never raise non-application errors. -/
theorem run_emits_exactly_once_witness :
    emitCount (run [idMiddleware "A"] demoUrls demoReq).events = 1 ∧
    (run [idMiddleware "A"] demoUrls demoReq).escaped = none :=
  run_emits_exactly_once [idMiddleware "A"] demoUrls demoReq
    (by intro m hm s msg
        simp only [List.mem_singleton] at hm
        subst hm
        simp [idMiddleware])

/-- C9: the in-place reversal is an involution on the shared chain: after two
consecutive fully served requests the chain is back in registration order, so
the third request's before-pass observes the original registration order, even
though the second request's before-pass observed the reversed order (whenever
the name sequence is not a palindrome). -/
theorem run_reverse_involution (middlewares : List Middleware)
    (urls : List (String × Handler)) (req1 req2 req3 : Request)
    (h1 h2 h3 : Handler)
    (hb : beforeOk middlewares) (ha : afterNoEscape middlewares)
    (hf1 : find_endpoint urls req1.path = some h1)
    (hf2 : find_endpoint urls req2.path = some h2)
    (hf3 : find_endpoint urls req3.path = some h3)
    (hh1 : ∀ r, ∃ resp, h1 r = Except.ok resp)
    (hh2 : ∀ r, ∃ resp, h2 r = Except.ok resp)
    (hh3 : ∀ r, ∃ resp, h3 r = Except.ok resp) :
    (run (run middlewares urls req1).middlewares urls req2).middlewares = middlewares ∧
    beforeOrder (run (run (run middlewares urls req1).middlewares urls req2).middlewares
        urls req3).events = middlewares.map Middleware.name ∧
    (middlewares.map Middleware.name ≠ (middlewares.map Middleware.name).reverse →
      beforeOrder (run (run middlewares urls req1).middlewares urls req2).events
        ≠ middlewares.map Middleware.name) := by
  obtain ⟨hm1, _, _⟩ := run_full middlewares urls req1 h1 hf1 hb hh1 ha
  obtain ⟨hm2, hbo2, _⟩ := run_full middlewares.reverse urls req2 h2 hf2
    (beforeOk_reverse hb) hh2 (afterNoEscape_reverse ha)
  obtain ⟨_, hbo3, _⟩ := run_full middlewares urls req3 h3 hf3 hb hh3 ha
  have hmid2 : (run (run middlewares urls req1).middlewares urls req2).middlewares
      = middlewares := by
    rw [hm1, hm2, List.reverse_reverse]
  refine ⟨hmid2, ?_, ?_⟩
  · rw [hmid2]
    exact hbo3
  · intro hne
    rw [hm1, hbo2, List.map_reverse]
    exact fun hEq => hne hEq.symm

/-- Witness for C9 on the chain `[A, B]` served three times through `/a`. -/
theorem run_reverse_involution_witness :
    (run (run [idMiddleware "A", idMiddleware "B"] demoUrls demoReq).middlewares
        demoUrls demoReq).middlewares = [idMiddleware "A", idMiddleware "B"] ∧
    beforeOrder (run (run (run [idMiddleware "A", idMiddleware "B"] demoUrls demoReq).middlewares
        demoUrls demoReq).middlewares demoUrls demoReq).events
      = [idMiddleware "A", idMiddleware "B"].map Middleware.name ∧
    ([idMiddleware "A", idMiddleware "B"].map Middleware.name
        ≠ ([idMiddleware "A", idMiddleware "B"].map Middleware.name).reverse →
      beforeOrder (run (run [idMiddleware "A", idMiddleware "B"] demoUrls demoReq).middlewares
          demoUrls demoReq).events
        ≠ [idMiddleware "A", idMiddleware "B"].map Middleware.name) :=
  run_reverse_involution [idMiddleware "A", idMiddleware "B"] demoUrls demoReq demoReq demoReq
    okHandler okHandler okHandler
    (by intro m hm r
        rcases List.mem_cons.mp hm with rfl | hm'
        · exact ⟨r, rfl⟩
        · rcases List.mem_singleton.mp hm' with rfl
          exact ⟨r, rfl⟩)
    (by intro m hm s msg
        rcases List.mem_cons.mp hm with rfl | hm'
        · simp [idMiddleware]
        · rcases List.mem_singleton.mp hm' with rfl
          simp [idMiddleware])
    rfl rfl rfl
    (fun r => ⟨_, rfl⟩) (fun r => ⟨_, rfl⟩) (fun r => ⟨_, rfl⟩)

end PantherSpec
